import Mathlib

/-!
Verification of the command-rewrite engine of `pi-rtk-rewrite`
(`extensions/rtk-rewrite.ts`).

The engine is a pure string-to-string transformer, so it is shallowly
embedded here over `List Char`.  Every definition mirrors one function of
the TypeScript source; JavaScript strings become `List Char`, `null`
becomes `none`, and the handful of anchored regular expressions used by
the source are translated into explicit, deterministic scanning functions
(each regex is quoted in a comment next to its translation; all of them
are backtracking-free on their inputs, which is argued where relevant).

Naming follows the source (`splitAtShellOp`, `shellTokenise`,
`translateGrep`, `translateFind`, `gitSubcmd`, `splitEnvPrefix`,
`tryRewriteSingle`, `mergeContLines`, `tryRewrite`); the rewrite-rule
record fields `match`/`rewrite` are renamed `matchFn`/`rewriteFn` because
`match` is a Lean keyword.
-/

-- ── Generic character/list helpers ──────────────────────────────────────────

/-- JavaScript `\s` on the ASCII range (space, tab, LF, CR, VT, FF).
Unicode space classes, which `\s` also covers, never occur in the inputs
considered here and are not modelled. -/
def jsWs (c : Char) : Bool :=
  c == ' ' || c == '\t' || c == '\n' || c == '\r' || c == '\x0b' || c == '\x0c'

/-- `kw` is a literal prefix of `s` (JS `String.startsWith` / an anchored
literal regex). -/
def pfx : List Char → List Char → Bool
  | [], _ => true
  | _ :: _, [] => false
  | a :: as, b :: bs => a == b && pfx as bs

/-- The string starts with at least one `\s` character (regex `\s` at the
current position). -/
def ws1 : List Char → Bool
  | [] => false
  | c :: _ => jsWs c

/-- Regex `(\s|$)` at the current position: end of input or a whitespace
character. -/
def wsOrEnd : List Char → Bool
  | [] => true
  | c :: _ => jsWs c

/-- Regex `^kw\s` as a test: the keyword followed by one whitespace char. -/
def kwWs1 (kw s : List Char) : Bool :=
  pfx kw s && ws1 (s.drop kw.length)

/-- Regex `^kw(\s|$)` as a test. -/
def kwWsOrEnd (kw s : List Char) : Bool :=
  pfx kw s && wsOrEnd (s.drop kw.length)

/-- Consume `kw` and the maximal following whitespace run (the matched part
of `^kw\s+`); call only after `kwWs1` holds. -/
def afterKwWs (kw s : List Char) : List Char :=
  (s.drop kw.length).dropWhile jsWs

/-- JS `tok.startsWith("-")`. -/
def dashHead : List Char → Bool
  | c :: _ => c == '-'
  | [] => false

/-- JS `String.trimEnd` (trailing whitespace removed). -/
def trimEnd (s : List Char) : List Char :=
  (s.reverse.dropWhile jsWs).reverse

/-- JS `String.trimStart` (leading whitespace removed). -/
def trimStart (s : List Char) : List Char :=
  s.dropWhile jsWs

/-- The command contains the substring `<<` (JS `command.includes("<<")`). -/
def hasHeredoc : List Char → Bool
  | '<' :: '<' :: _ => true
  | _ :: rest => hasHeredoc rest
  | [] => false

/-- Regex `\/rtk\s` as an unanchored test: the substring `/rtk` followed by
a whitespace character occurs somewhere. -/
def hasSlashRtkWs : List Char → Bool
  | '/' :: 'r' :: 't' :: 'k' :: c :: rest =>
      jsWs c || hasSlashRtkWs ('r' :: 't' :: 'k' :: c :: rest)
  | _ :: rest => hasSlashRtkWs rest
  | [] => false

/-- `^rtk\s` or `\/rtk\s` — the "already using rtk" skip of
`tryRewriteSingle`. -/
def rtkStart (cmd : List Char) : Bool :=
  kwWs1 ['r', 't', 'k'] cmd || hasSlashRtkWs cmd

/-- `Array.join(" ")`. -/
def joinSpace : List (List Char) → List Char
  | [] => []
  | [p] => p
  | p :: ps => p ++ ' ' :: joinSpace ps

-- ── splitAtShellOp (source lines 109–126) ───────────────────────────────────

/--
Scanner core of `splitAtShellOp`.  State `q` is the current quote
character (`none` when unquoted).  Returns `some (before, fromOp)` when an
unquoted shell operator (`|`, `;`, `>`, `<`, or `&&`) is found, splitting
the input at the operator (which starts `fromOp`); `none` when no
unquoted operator occurs.  Mirrors the per-character loop of the source:
inside quotes only the closing quote is inspected; unquoted `"`/`'` open a
quote; a lone `&` is an ordinary character.  There is no backslash-escape
state in the source and none here.
-/
def splitOpAux (q : Option Char) : List Char → Option (List Char × List Char)
  | [] => none
  | c :: cs =>
    match q with
    | some qc =>
        if c == qc then
          (splitOpAux none cs).map (fun bt => (c :: bt.1, bt.2))
        else
          (splitOpAux (some qc) cs).map (fun bt => (c :: bt.1, bt.2))
    | none =>
        if c == '"' || c == '\'' then
          (splitOpAux (some c) cs).map (fun bt => (c :: bt.1, bt.2))
        else if c == '|' || c == ';' || c == '>' || c == '<' then
          some ([], c :: cs)
        else if c == '&' && ws1Amp cs then
          some ([], c :: cs)
        else
          (splitOpAux none cs).map (fun bt => (c :: bt.1, bt.2))
where
  /-- `cmd[i + 1] === "&"`. -/
  ws1Amp : List Char → Bool
    | '&' :: _ => true
    | _ => false

/--
`splitAtShellOp` (source): split a command at the first unquoted shell
operator; returns `[commandPart, shellTail]` where the command part is
`trimEnd`-ed and the tail is `" " + cmd.slice(i)`.
-/
def splitAtShellOp (cmd : List Char) : List Char × List Char :=
  match splitOpAux none cmd with
  | some (before, tail) => (trimEnd before, ' ' :: tail)
  | none => (cmd, [])

-- ── shellTokenise (source lines 279–306) ────────────────────────────────────

/--
Core loop of `shellTokenise`: split on runs of space/tab outside quotes,
stripping the quote characters themselves; `cur` is the token being
accumulated.  As in the source there is no escape handling, an
unterminated quote continues to end of string, and only the empty
`cur` is not emitted.
-/
def tokAux (q : Option Char) (cur : List Char) : List Char → List (List Char)
  | [] => if cur == [] then [] else [cur]
  | c :: cs =>
    match q with
    | some qc =>
        if c == qc then tokAux none cur cs
        else tokAux (some qc) (cur ++ [c]) cs
    | none =>
        if c == '"' || c == '\'' then tokAux (some c) cur cs
        else if c == ' ' || c == '\t' then
          if cur == [] then tokAux none [] cs
          else cur :: tokAux none [] cs
        else tokAux none (cur ++ [c]) cs

/-- `shellTokenise` (source): whitespace-split with single/double-quote
awareness. -/
def shellTokenise (input : List Char) : List (List Char) :=
  tokAux none [] input

-- ── splitEnvPrefix (source lines 551–555) ───────────────────────────────────

/-- Regex class `[A-Za-z_]` (identifier start). -/
def isIdentStart (c : Char) : Bool :=
  c.isAlpha || c == '_'

/-- Regex class `[A-Za-z0-9_]` (identifier continuation). -/
def isIdentChar (c : Char) : Bool :=
  c.isAlphanum || c == '_'

/--
One group of the anchored regex `^(?:[A-Za-z_][A-Za-z0-9_]*=[^ ]* +)+` of
`splitEnvPrefix`: an identifier, `=`, a maximal run of non-space
characters, then a maximal nonempty run of spaces.  Returns
`some (consumed, rest)` on a match.  The regex is deterministic here:
`[A-Za-z0-9_]*` is greedy and `=` is not an identifier character, `[^ ]*`
is greedy and ` ` is not in its class, so no backtracking alternative
exists.
-/
def envAssign1 : List Char → Option (List Char × List Char)
  | [] => none
  | c :: rest =>
    if isIdentStart c then
      match rest.dropWhile isIdentChar with
      | d :: r2 =>
        if d = '=' then
          let idTail := rest.takeWhile isIdentChar
          let v := r2.takeWhile (fun ch => !(ch == ' '))
          let r3 := r2.dropWhile (fun ch => !(ch == ' '))
          let sp := r3.takeWhile (fun ch => ch == ' ')
          let r4 := r3.dropWhile (fun ch => ch == ' ')
          if sp == [] then none
          else some (c :: idTail ++ '=' :: v ++ sp, r4)
        else none
      | [] => none
    else none

/--
The `+` repetition of the `splitEnvPrefix` regex, written with explicit
fuel so that it is structurally recursive (each successful `envAssign1`
strictly shortens the input, so `cs.length` steps always suffice; fuel
exhaustion is unreachable and returns the not-matched answer).
-/
def envSplitF : Nat → List Char → List Char × List Char
  | 0, cs => ([], cs)
  | n + 1, cs =>
    match envAssign1 cs with
    | none => ([], cs)
    | some (g, rest) =>
        let pb := envSplitF n rest
        (g ++ pb.1, pb.2)

/-- `splitEnvPrefix` (source): separates leading `KEY=val ` env-var
assignments from the command body. -/
def splitEnvPrefix (cmd : List Char) : List Char × List Char :=
  envSplitF cmd.length cmd

-- ── translateGrep (source lines 139–210) ────────────────────────────────────

/-- `--glob` literal. -/
def globTk : List Char := ['-', '-', 'g', 'l', 'o', 'b']

/-- The `stripShort` set `{"r", "R"}` of `translateGrep`, as a character
test. -/
def stripShortCh (c : Char) : Bool :=
  c == 'r' || c == 'R'

/-- The `argFlags` set of `translateGrep`: flags that consume a following
argument. -/
def ARG_FLAGS : List (List Char) :=
  [['-', 'A'], ['-', 'B'], ['-', 'C'], ['-', 'm'], ['-', 'e'], ['-', 'f'], globTk]

/-- Regex `/^-[a-zA-Z]{2,}$/` (a combined short-flag cluster) together
with the source's `!tok.startsWith("--")` guard (redundant, kept for
fidelity: `-` is not a letter). -/
def combinedShort (tok : List Char) : Bool :=
  (match tok with
   | c :: t => c == '-' && decide (2 ≤ t.length) && t.all Char.isAlpha
   | [] => false)
  && !(pfx ['-', '-'] tok)

/-- Regex `/^--include=(.+)$/`: test (the capture is everything after the
`=`, nonempty). -/
def includeEq (tok : List Char) : Bool :=
  pfx "--include=".data tok && decide (10 < tok.length)

/-- The capture group of `/^--include=(.+)$/`. -/
def includeEqArg (tok : List Char) : List Char :=
  tok.drop 10

/--
The token loop of `translateGrep` (source lines 157–202).  State:
`pat`/`path` are the first/second positional tokens seen so far, `extra`
the accumulated `EXTRA_ARGS`.  Returns `none` on a third positional token
(the source's "unexpected extra positional — bail out"), otherwise the
final state.  The two-token pattern arm mirrors the `tokens[++i]`
consumption of `--include` and the arg-flags; when such a flag is the
last token the source's `i + 1 < tokens.length` guard fails and the token
falls through to the pass-through branch, which the single-token arm
mirrors.
-/
def grepLoop (pat path : Option (List Char)) (extra : List (List Char)) :
    List (List Char) →
    Option (Option (List Char) × Option (List Char) × List (List Char))
  | [] => some (pat, path, extra)
  | [tok] =>
    if combinedShort tok then
      let kept := (tok.drop 1).filter (fun ch => !stripShortCh ch)
      grepLoop pat path (if kept == [] then extra else extra ++ ['-' :: kept]) []
    else if tok == "-r".data || tok == "-R".data || tok == "--recursive".data then
      grepLoop pat path extra []
    else if includeEq tok then
      grepLoop pat path (extra ++ [globTk, includeEqArg tok]) []
    else if dashHead tok then
      grepLoop pat path (extra ++ [tok]) []
    else if pat == none then grepLoop (some tok) path extra []
    else if path == none then grepLoop pat (some tok) extra []
    else none
  | tok :: v :: rest =>
    if combinedShort tok then
      let kept := (tok.drop 1).filter (fun ch => !stripShortCh ch)
      grepLoop pat path (if kept == [] then extra else extra ++ ['-' :: kept]) (v :: rest)
    else if tok == "-r".data || tok == "-R".data || tok == "--recursive".data then
      grepLoop pat path extra (v :: rest)
    else if includeEq tok then
      grepLoop pat path (extra ++ [globTk, includeEqArg tok]) (v :: rest)
    else if tok == "--include".data then
      grepLoop pat path (extra ++ [globTk, v]) rest
    else if ARG_FLAGS.contains tok then
      grepLoop pat path (extra ++ [tok, v]) rest
    else if dashHead tok then
      grepLoop pat path (extra ++ [tok]) (v :: rest)
    else if pat == none then grepLoop (some tok) path extra (v :: rest)
    else if path == none then grepLoop pat (some tok) extra (v :: rest)
    else none

/-- The single `replace(/^(rg|grep)\s+/, "")` of `translateGrep`: strip
the leading program name and the whitespace run after it (alternation
tries `rg` first, as in the regex; the alternatives exclude each other). -/
def stripGrepRg (s : List Char) : List Char :=
  if kwWs1 "rg".data s then afterKwWs "rg".data s
  else if kwWs1 "grep".data s then afterKwWs "grep".data s
  else s

/--
`translateGrep` (source): translate a grep/rg invocation to
`rtk grep <PATTERN> [PATH] [EXTRA_ARGS]`, or `none` if untranslatable.
JS truthiness of the pattern/path strings (`if (!pattern)`, `if (path)`)
is modelled as "present and nonempty".
-/
def translateGrep (body : List Char) : Option (List Char) :=
  let ct := splitAtShellOp body
  let rest := stripGrepRg ct.1
  if rest == [] then none
  else
    match grepLoop none none [] (shellTokenise rest) with
    | none => none
    | some (pat, path, extra) =>
      match pat with
      | none => none
      | some p =>
        if p == [] then none
        else
          let parts := ["rtk grep".data, p]
          let parts := match path with
            | some q => if q == [] then parts else parts ++ [q]
            | none => parts
          let parts := if extra == [] then parts else parts ++ [joinSpace extra]
          some (joinSpace parts ++ ct.2)

-- ── translateFind (source lines 222–274) ────────────────────────────────────

/-- The `dangerous` side-effect-flag set of `translateFind`. -/
def DANGEROUS : List (List Char) :=
  ["-exec".data, "-execdir".data, "-delete".data, "-print0".data,
   "-ok".data, "-fls".data, "-fprint".data]

/--
The token loop of `translateFind` (source lines 241–266).  State: the
`-name`/`-iname` value, the first positional (search path), the `-type`
value.  `-name`/`-iname` with no following token falls to the loop's
`continue`; `-type`, `-maxdepth`, `-mindepth` with no following token
fall through to the unknown-flag bail-out (`none`), as in the source.  A
positional token is kept only when `path` is still unset; later
positionals are skipped with no effect.
-/
def findLoop (name path ftype : Option (List Char)) :
    List (List Char) →
    Option (Option (List Char) × Option (List Char) × Option (List Char))
  | [] => some (name, path, ftype)
  | [tok] =>
    if tok == "-name".data || tok == "-iname".data then
      findLoop name path ftype []
    else if dashHead tok then none
    else if path == none then findLoop name (some tok) ftype []
    else findLoop name path ftype []
  | tok :: v :: rest =>
    if tok == "-name".data || tok == "-iname".data then
      findLoop (some v) path ftype rest
    else if tok == "-type".data then
      findLoop name path (some v) rest
    else if tok == "-maxdepth".data || tok == "-mindepth".data then
      findLoop name path ftype rest
    else if dashHead tok then none
    else if path == none then findLoop name (some tok) ftype (v :: rest)
    else findLoop name path ftype (v :: rest)

/-- The single `replace(/^find\s+/, "")` of `translateFind`. -/
def stripFindKw (s : List Char) : List Char :=
  if kwWs1 "find".data s then afterKwWs "find".data s else s

/--
`translateFind` (source): translate a find invocation to
`rtk find <PATTERN> [PATH] [-t f|d]`, or `none` if untranslatable
(side-effect flag present, unknown flag, or no `-name` pattern).
-/
def translateFind (body : List Char) : Option (List Char) :=
  let ct := splitAtShellOp body
  let rest := stripFindKw ct.1
  if rest == [] then none
  else
    let tokens := shellTokenise rest
    if tokens.any (fun t => DANGEROUS.contains t) then none
    else
      match findLoop none none none tokens with
      | none => none
      | some (name, path, ftype) =>
        match name with
        | none => none
        | some np =>
          if np == [] then none
          else
            let parts := ["rtk find".data, np]
            let parts := match path with
              | some q => if q == [] then parts else parts ++ [q]
              | none => parts
            let parts := match ftype with
              | some ft =>
                  if ft == "f".data || ft == "d".data then parts ++ [['-', 't'], ft]
                  else parts
              | none => parts
            some (joinSpace parts ++ ct.2)

-- ── Global regex replace machinery for the sub-command extractors ───────────

/--
JS `String.replace(re, "")` with the `g` flag, for a pattern `try1` that,
at a given position, either matches (returning the rest of the string
after the matched, deleted portion) or fails.  Scans left to right,
non-overlapping, as the JS engine does.  Written with fuel (one unit per
scanned position; every step either deletes a nonempty match or keeps one
character, so `cs.length` units always suffice and fuel exhaustion is
unreachable).
-/
def gsubF (try1 : List Char → Option (List Char)) : Nat → List Char → List Char
  | 0, cs => cs
  | _ + 1, [] => []
  | n + 1, c :: cs =>
    match try1 (c :: cs) with
    | some rest => gsubF try1 n rest
    | none => c :: gsubF try1 n cs

/-- Global delete-replace of all matches of `try1`. -/
def gsub (try1 : List Char → Option (List Char)) (cs : List Char) : List Char :=
  gsubF try1 cs.length cs

/--
Pattern `kw\s+\S+\s*` at the current position (a flag that consumes one
argument): the literal flag, at least one whitespace char, a maximal
nonempty non-whitespace run, then a maximal whitespace run.  All three
quantifiers are deterministic here (`\s+` greedy then `\S` requires
non-whitespace; `\S+` greedy then `\s*` is unconstrained).
-/
def flagArgTry (kw : List Char) (s : List Char) : Option (List Char) :=
  if pfx kw s then
    let r := s.drop kw.length
    if ws1 r then
      let r2 := r.dropWhile jsWs
      if r2 == [] then none
      else some ((r2.dropWhile (fun ch => !jsWs ch)).dropWhile jsWs)
    else none
  else none

/--
Pattern `--\S+=\S+\s*` at the current position.  The first greedy `\S+`
backtracks until the following char is `=` with at least one non-space
character after it, i.e. the whole non-whitespace run after `--` is
consumed iff it contains an `=` at some index `i` with
`1 ≤ i ≤ run.length - 2`.
-/
def ddEqTry : List Char → Option (List Char)
  | '-' :: '-' :: rest =>
    let run := rest.takeWhile (fun c => !jsWs c)
    if ((run.drop 1).dropLast).contains '=' then
      some ((rest.dropWhile (fun c => !jsWs c)).dropWhile jsWs)
    else none
  | _ => none

/-- Pattern `(-C|-c)\s+\S+\s*` of `gitSubcmd` (alternation tried in
order). -/
def dashCTry (s : List Char) : Option (List Char) :=
  (flagArgTry "-C".data s).orElse (fun _ => flagArgTry "-c".data s)

/-- Pattern `--(no-pager|no-optional-locks|bare|literal-pathspecs)\s*` of
`gitSubcmd` (alternation tried in order; no word boundary after, as in
the source regex). -/
def gitWordTry (s : List Char) : Option (List Char) :=
  if pfx "--no-pager".data s then some ((s.drop 10).dropWhile jsWs)
  else if pfx "--no-optional-locks".data s then some ((s.drop 19).dropWhile jsWs)
  else if pfx "--bare".data s then some ((s.drop 6).dropWhile jsWs)
  else if pfx "--literal-pathspecs".data s then some ((s.drop 19).dropWhile jsWs)
  else none

/-- The first word: `split(/\s+/)[0]` after `trimStart` (the stripped
strings here never begin with whitespace, see the callers). -/
def firstWordOf (s : List Char) : List Char :=
  (s.dropWhile jsWs).takeWhile (fun c => !jsWs c)

/-- `gitSubcmd` (source lines 67–75): strip `^git\s+`, then globally
delete `(-C|-c)\s+\S+\s*`, `--\S+=\S+\s*`, and the four long flags; the
first remaining word is the sub-command. -/
def gitSubcmd (cmd : List Char) : List Char :=
  let s1 := if kwWs1 "git".data cmd then afterKwWs "git".data cmd else cmd
  firstWordOf (gsub gitWordTry (gsub ddEqTry (gsub dashCTry s1)))

/-- Pattern `(-H|--context|--config)\s+\S+\s*` of `dockerSubcmd`. -/
def dockerFlagTry (s : List Char) : Option (List Char) :=
  ((flagArgTry "-H".data s).orElse
    (fun _ => flagArgTry "--context".data s)).orElse
    (fun _ => flagArgTry "--config".data s)

/-- `dockerSubcmd` (source lines 78–85). -/
def dockerSubcmd (cmd : List Char) : List Char :=
  let s1 := if kwWs1 "docker".data cmd then afterKwWs "docker".data cmd else cmd
  firstWordOf (gsub ddEqTry (gsub dockerFlagTry s1))

/-- Pattern `(--context|--kubeconfig|--namespace|-n)\s+\S+\s*` of
`kubectlSubcmd`. -/
def kubectlFlagTry (s : List Char) : Option (List Char) :=
  (((flagArgTry "--context".data s).orElse
    (fun _ => flagArgTry "--kubeconfig".data s)).orElse
    (fun _ => flagArgTry "--namespace".data s)).orElse
    (fun _ => flagArgTry "-n".data s)

/-- `kubectlSubcmd` (source lines 88–95). -/
def kubectlSubcmd (cmd : List Char) : List Char :=
  let s1 := if kwWs1 "kubectl".data cmd then afterKwWs "kubectl".data cmd else cmd
  firstWordOf (gsub ddEqTry (gsub kubectlFlagTry s1))

/-- The strip of the cargo rule's matcher:
`cmd.replace(/^cargo\s+(\+\S+\s+)?/, "")` — the optional toolchain
selector `+<name> ` is consumed only when the whole group (`+`, a
nonempty non-space run, then at least one whitespace) matches. -/
def cargoStrip (cmd : List Char) : List Char :=
  if kwWs1 "cargo".data cmd then
    let r := afterKwWs "cargo".data cmd
    match r with
    | '+' :: t =>
        let run := t.takeWhile (fun c => !jsWs c)
        let r2 := t.dropWhile (fun c => !jsWs c)
        if run == [] then r
        else if ws1 r2 then r2.dropWhile jsWs
        else r
    | _ => r
  else cmd

/-- The cargo sub-command: first word after `cargoStrip`. -/
def cargoSub (cmd : List Char) : List Char :=
  (cargoStrip cmd).takeWhile (fun c => !jsWs c)

-- ── Rule table (source lines 312–546) ───────────────────────────────────────

/-- The git sub-command allow-list `GIT_SUBCMDS`. -/
def GIT_SUBCMDS : List (List Char) :=
  ["status".data, "diff".data, "log".data, "add".data, "commit".data,
   "push".data, "pull".data, "branch".data, "fetch".data, "stash".data,
   "show".data]

/-- `CARGO_SUBCMDS`. -/
def CARGO_SUBCMDS : List (List Char) :=
  ["test".data, "build".data, "clippy".data, "check".data, "install".data,
   "fmt".data]

/-- `DOCKER_SIMPLE_SUBCMDS`. -/
def DOCKER_SIMPLE_SUBCMDS : List (List Char) :=
  ["ps".data, "images".data, "logs".data, "run".data, "build".data,
   "exec".data]

/-- `KUBECTL_SUBCMDS`. -/
def KUBECTL_SUBCMDS : List (List Char) :=
  ["get".data, "logs".data, "describe".data, "apply".data]

/-- A rewrite rule of the table.  The source's `match`/`rewrite` fields
are called `matchFn`/`rewriteFn` (`match` is a Lean keyword). -/
structure RewriteRule where
  label : String
  matchFn : List Char → Bool
  rewriteFn : List Char → List Char

/-- The result record `{ rewritten, rule }`. -/
structure RwRes where
  rewritten : List Char
  rule : String
deriving DecidableEq, Repr

/-- Optional leading `(npx\s+)?` of several JS/TS-tool regexes: consumed
when present.  (Committing to the consumed form loses no matches: a
string cannot simultaneously start with `npx\s` and with the tool
name.) -/
def optNpx (s : List Char) : List Char :=
  if kwWs1 "npx".data s then afterKwWs "npx".data s else s

/-- Anchored literal-text replace: JS `body.replace(/^old /, "new ")`
where the pattern is plain text. -/
def replaceLit (old new s : List Char) : List Char :=
  if pfx old s then new ++ s.drop old.length else s

/-- Matcher `^gh\s+(pr|issue|run|api|release)(\s|$)`. -/
def ghMatch (cmd : List Char) : Bool :=
  kwWs1 "gh".data cmd &&
  (let r := afterKwWs "gh".data cmd
   kwWsOrEnd "pr".data r || kwWsOrEnd "issue".data r || kwWsOrEnd "run".data r ||
   kwWsOrEnd "api".data r || kwWsOrEnd "release".data r)

/-- Matcher `^(rg|grep)\s+`. -/
def grepRgMatch (cmd : List Char) : Bool :=
  kwWs1 "rg".data cmd || kwWs1 "grep".data cmd

/-- `(\d+)\s+(.+)$` after the flag of a `head` rewrite pattern: the
captured digits and the captured remainder.  `.` does not match a
newline; when everything after the digits is whitespace the greedy `\s+`
donates exactly its last character (if it is not a newline) to `(.+)`. -/
def headTail (t : List Char) : Option (List Char × List Char) :=
  let d := t.takeWhile Char.isDigit
  let r2 := t.dropWhile Char.isDigit
  if d == [] then none
  else if ws1 r2 then
    let rest := r2.dropWhile jsWs
    if rest == [] then
      match r2.getLast? with
      | some c => if decide (2 ≤ r2.length) && !(c == '\n') then some (d, [c]) else none
      | none => none
    else if rest.contains '\n' then none
    else some (d, rest)
  else none

/-- Matcher `^head\s+(-\d+|--lines=\d+)\s+` (test only). -/
def headMatch (cmd : List Char) : Bool :=
  kwWs1 "head".data cmd &&
  (let r := afterKwWs "head".data cmd
   (pfx "--lines=".data r &&
      (let t := r.drop 8
       !(t.takeWhile Char.isDigit == []) && ws1 (t.dropWhile Char.isDigit)))
   || (match r with
       | '-' :: t => !(t.takeWhile Char.isDigit == []) && ws1 (t.dropWhile Char.isDigit)
       | _ => false))

/-- Rewrite of the `head` rule: `/^head\s+-(\d+)\s+(.+)$/` then
`/^head\s+--lines=(\d+)\s+(.+)$/`, else the body unchanged. -/
def headRw (b : List Char) : List Char :=
  if kwWs1 "head".data b then
    let r := afterKwWs "head".data b
    let form1 : Option (List Char × List Char) :=
      match r with
      | '-' :: t => headTail t
      | _ => none
    match form1 with
    | some dr => "rtk read ".data ++ dr.2 ++ " --max-lines ".data ++ dr.1
    | none =>
      if pfx "--lines=".data r then
        match headTail (r.drop 8) with
        | some dr => "rtk read ".data ++ dr.2 ++ " --max-lines ".data ++ dr.1
        | none => b
      else b
  else b

/-- Matcher `^(pnpm\s+)?(npx\s+)?vitest(\s|$)` (optional prefixes are
committed when present; the alternatives are mutually exclusive so no
backtracking case is lost). -/
def vitestMatch (cmd : List Char) : Bool :=
  let s1 := if kwWs1 "pnpm".data cmd then afterKwWs "pnpm".data cmd else cmd
  let s2 := if kwWs1 "npx".data s1 then afterKwWs "npx".data s1 else s1
  kwWsOrEnd "vitest".data s2

/-- Rewrite `replace(/^(pnpm\s+)?(npx\s+)?vitest(\s+run)?/, "rtk vitest run")`. -/
def vitestRw (b : List Char) : List Char :=
  let s1 := if kwWs1 "pnpm".data b then afterKwWs "pnpm".data b else b
  let s2 := if kwWs1 "npx".data s1 then afterKwWs "npx".data s1 else s1
  if pfx "vitest".data s2 then
    let r := s2.drop 6
    let r2 := if ws1 r && pfx "run".data (r.dropWhile jsWs)
              then (r.dropWhile jsWs).drop 3 else r
    "rtk vitest run".data ++ r2
  else b

/-- Rewrite `replace(/^(npx\s+)?kw/, new)` for a literal tool name. -/
def optNpxRw (kw new b : List Char) : List Char :=
  let s1 := optNpx b
  if pfx kw s1 then new ++ s1.drop kw.length else b

/-- Matcher `^docker\s+compose` (test, no trailing `(\s|$)`). -/
def dockerComposeTest (cmd : List Char) : Bool :=
  kwWs1 "docker".data cmd && pfx "compose".data (afterKwWs "docker".data cmd)

/-- Rewrite `replace(/^(npx\s+|pnpm\s+)?playwright/, "rtk playwright")`. -/
def playwrightRw (b : List Char) : List Char :=
  let s1 := if kwWs1 "npx".data b then afterKwWs "npx".data b
            else if kwWs1 "pnpm".data b then afterKwWs "pnpm".data b
            else b
  if pfx "playwright".data s1 then "rtk playwright".data ++ s1.drop 10 else b

/-- The ordered rule table (source lines 329–546), first match wins. -/
def rules : List RewriteRule :=
  [ { label := "git",
      matchFn := fun cmd => kwWs1 "git".data cmd && GIT_SUBCMDS.contains (gitSubcmd cmd),
      rewriteFn := fun b => "rtk ".data ++ b },
    { label := "gh",
      matchFn := ghMatch,
      rewriteFn := replaceLit "gh ".data "rtk gh ".data },
    { label := "cargo",
      matchFn := fun cmd => kwWs1 "cargo".data cmd && CARGO_SUBCMDS.contains (cargoSub cmd),
      rewriteFn := fun b => "rtk ".data ++ b },
    { label := "cat → rtk read",
      matchFn := kwWs1 "cat".data,
      rewriteFn := replaceLit "cat ".data "rtk read ".data },
    { label := "grep/rg",
      matchFn := grepRgMatch,
      rewriteFn := fun b => (translateGrep b).getD b },
    { label := "ls",
      matchFn := kwWsOrEnd "ls".data,
      rewriteFn := replaceLit "ls".data "rtk ls".data },
    { label := "tree",
      matchFn := kwWsOrEnd "tree".data,
      rewriteFn := replaceLit "tree".data "rtk tree".data },
    { label := "find",
      matchFn := kwWs1 "find".data,
      rewriteFn := fun b => (translateFind b).getD b },
    { label := "diff",
      matchFn := kwWs1 "diff".data,
      rewriteFn := replaceLit "diff ".data "rtk diff ".data },
    { label := "head → rtk read",
      matchFn := headMatch,
      rewriteFn := headRw },
    { label := "vitest",
      matchFn := vitestMatch,
      rewriteFn := vitestRw },
    { label := "pnpm test",
      matchFn := fun cmd => kwWs1 "pnpm".data cmd && kwWsOrEnd "test".data (afterKwWs "pnpm".data cmd),
      rewriteFn := replaceLit "pnpm test".data "rtk vitest run".data },
    { label := "npm test",
      matchFn := fun cmd => kwWs1 "npm".data cmd && kwWsOrEnd "test".data (afterKwWs "npm".data cmd),
      rewriteFn := replaceLit "npm test".data "rtk npm test".data },
    { label := "npm run",
      matchFn := fun cmd => kwWs1 "npm".data cmd && kwWs1 "run".data (afterKwWs "npm".data cmd),
      rewriteFn := replaceLit "npm run ".data "rtk npm ".data },
    { label := "vue-tsc / tsc",
      matchFn := fun cmd => kwWsOrEnd "vue-tsc".data (optNpx cmd),
      rewriteFn := optNpxRw "vue-tsc".data "rtk tsc".data },
    { label := "pnpm tsc",
      matchFn := fun cmd => kwWs1 "pnpm".data cmd && kwWsOrEnd "tsc".data (afterKwWs "pnpm".data cmd),
      rewriteFn := replaceLit "pnpm tsc".data "rtk tsc".data },
    { label := "tsc",
      matchFn := fun cmd => kwWsOrEnd "tsc".data (optNpx cmd),
      rewriteFn := optNpxRw "tsc".data "rtk tsc".data },
    { label := "pnpm lint",
      matchFn := fun cmd => kwWs1 "pnpm".data cmd && kwWsOrEnd "lint".data (afterKwWs "pnpm".data cmd),
      rewriteFn := replaceLit "pnpm lint".data "rtk lint".data },
    { label := "eslint",
      matchFn := fun cmd => kwWsOrEnd "eslint".data (optNpx cmd),
      rewriteFn := optNpxRw "eslint".data "rtk lint".data },
    { label := "prettier",
      matchFn := fun cmd => kwWsOrEnd "prettier".data (optNpx cmd),
      rewriteFn := optNpxRw "prettier".data "rtk prettier".data },
    { label := "playwright",
      matchFn := fun cmd =>
        kwWsOrEnd "playwright".data
          (if kwWs1 "npx".data cmd then afterKwWs "npx".data cmd
           else if kwWs1 "pnpm".data cmd then afterKwWs "pnpm".data cmd
           else cmd),
      rewriteFn := playwrightRw },
    { label := "prisma",
      matchFn := fun cmd => kwWsOrEnd "prisma".data (optNpx cmd),
      rewriteFn := optNpxRw "prisma".data "rtk prisma".data },
    { label := "docker compose",
      matchFn := fun cmd => kwWs1 "docker".data cmd && kwWsOrEnd "compose".data (afterKwWs "docker".data cmd),
      rewriteFn := replaceLit "docker ".data "rtk docker ".data },
    { label := "docker",
      matchFn := fun cmd =>
        kwWs1 "docker".data cmd && !dockerComposeTest cmd &&
        DOCKER_SIMPLE_SUBCMDS.contains (dockerSubcmd cmd),
      rewriteFn := replaceLit "docker ".data "rtk docker ".data },
    { label := "kubectl",
      matchFn := fun cmd => kwWs1 "kubectl".data cmd && KUBECTL_SUBCMDS.contains (kubectlSubcmd cmd),
      rewriteFn := replaceLit "kubectl ".data "rtk kubectl ".data },
    { label := "curl",
      matchFn := kwWs1 "curl".data,
      rewriteFn := replaceLit "curl ".data "rtk curl ".data },
    { label := "wget",
      matchFn := kwWs1 "wget".data,
      rewriteFn := replaceLit "wget ".data "rtk wget ".data },
    { label := "pnpm list/outdated",
      matchFn := fun cmd =>
        kwWs1 "pnpm".data cmd &&
        (let r := afterKwWs "pnpm".data cmd
         kwWsOrEnd "list".data r || kwWsOrEnd "ls".data r || kwWsOrEnd "outdated".data r),
      rewriteFn := replaceLit "pnpm ".data "rtk pnpm ".data },
    { label := "pytest",
      matchFn := kwWsOrEnd "pytest".data,
      rewriteFn := replaceLit "pytest".data "rtk pytest".data },
    { label := "python -m pytest",
      matchFn := fun cmd =>
        kwWs1 "python".data cmd &&
        (let r := afterKwWs "python".data cmd
         kwWs1 "-m".data r && kwWsOrEnd "pytest".data (afterKwWs "-m".data r)),
      rewriteFn := replaceLit "python -m pytest".data "rtk pytest".data },
    { label := "ruff",
      matchFn := fun cmd =>
        kwWs1 "ruff".data cmd &&
        (let r := afterKwWs "ruff".data cmd
         kwWsOrEnd "check".data r || kwWsOrEnd "format".data r),
      rewriteFn := replaceLit "ruff ".data "rtk ruff ".data },
    { label := "pip",
      matchFn := fun cmd =>
        kwWs1 "pip".data cmd &&
        (let r := afterKwWs "pip".data cmd
         kwWsOrEnd "list".data r || kwWsOrEnd "outdated".data r ||
         kwWsOrEnd "install".data r || kwWsOrEnd "show".data r),
      rewriteFn := replaceLit "pip ".data "rtk pip ".data },
    { label := "uv pip",
      matchFn := fun cmd =>
        kwWs1 "uv".data cmd &&
        (let r := afterKwWs "uv".data cmd
         kwWs1 "pip".data r &&
         (let r2 := afterKwWs "pip".data r
          kwWsOrEnd "list".data r2 || kwWsOrEnd "outdated".data r2 ||
          kwWsOrEnd "install".data r2 || kwWsOrEnd "show".data r2)),
      rewriteFn := replaceLit "uv pip ".data "rtk pip ".data },
    { label := "go test",
      matchFn := fun cmd => kwWs1 "go".data cmd && kwWsOrEnd "test".data (afterKwWs "go".data cmd),
      rewriteFn := replaceLit "go test".data "rtk go test".data },
    { label := "go build",
      matchFn := fun cmd => kwWs1 "go".data cmd && kwWsOrEnd "build".data (afterKwWs "go".data cmd),
      rewriteFn := replaceLit "go build".data "rtk go build".data },
    { label := "go vet",
      matchFn := fun cmd => kwWs1 "go".data cmd && kwWsOrEnd "vet".data (afterKwWs "go".data cmd),
      rewriteFn := replaceLit "go vet".data "rtk go vet".data },
    { label := "golangci-lint",
      matchFn := kwWsOrEnd "golangci-lint".data,
      rewriteFn := replaceLit "golangci-lint".data "rtk golangci-lint".data } ]

-- ── tryRewriteSingle (source lines 562–584) ─────────────────────────────────

/-- The first-match-wins walk of the rule table, with the defensive
no-op guard: a rule whose rewrite returns the body unchanged is skipped
and scanning continues. -/
def rulesLoop : List RewriteRule → List Char → Option RwRes
  | [], _ => none
  | r :: rs, body =>
    if r.matchFn body then
      let rb := r.rewriteFn body
      if rb == body then rulesLoop rs body
      else some ⟨rb, r.label⟩
    else rulesLoop rs body

/-- `tryRewriteSingle` (source): skip rtk-invocations and heredocs, split
the environment prefix, walk the rule table on the body, and reattach the
prefix to the rewritten body. -/
def tryRewriteSingle (command : List Char) : Option RwRes :=
  if rtkStart command then none
  else if hasHeredoc command then none
  else
    let pb := splitEnvPrefix command
    match rulesLoop rules pb.2 with
    | none => none
    | some res => some ⟨pb.1 ++ res.rewritten, res.rule⟩

-- ── Multi-line handling (source lines 591–663) ──────────────────────────────

/-- JS `ln.endsWith("\\")`. -/
def endsBS (ln : List Char) : Bool :=
  match ln.getLast? with
  | some '\\' => true
  | _ => false

/-- Accumulator loop of `mergeContLines`: `buf` collects physical lines
ending in a continuation backslash (each kept with its newline); a
non-continuation line closes the logical line; a nonempty trailing `buf`
is emitted as-is (the source's `if (buf) out.push(buf)`). -/
def mergeAux (buf : List Char) : List (List Char) → List (List Char)
  | [] => if buf == [] then [] else [buf]
  | ln :: rest =>
    if endsBS ln then mergeAux (buf ++ ln ++ ['\n']) rest
    else (buf ++ ln) :: mergeAux [] rest

/-- `mergeContLines` (source): merge physical lines that end with `\`
into logical lines, preserving the embedded line breaks. -/
def mergeContLines (lines : List (List Char)) : List (List Char) :=
  mergeAux [] lines

/-- JS `command.split("\n")` (never returns an empty array; `""` splits
to `[""]`). -/
def splitNl : List Char → List (List Char)
  | [] => [[]]
  | c :: cs =>
    let r := splitNl cs
    if c == '\n' then [] :: r
    else match r with
      | l :: ls => (c :: l) :: ls
      | [] => [[c]]

/-- `Array.join("\n")`. -/
def joinNl : List (List Char) → List Char
  | [] => []
  | [l] => l
  | l :: ls => l ++ '\n' :: joinNl ls

/-- Per-logical-line processing of `tryRewrite`'s multi-line loop: blank
lines and comment lines pass through; otherwise `tryRewriteSingle` runs
on the `trimStart`-ed line and, on success, the original indentation is
reattached.  Returns the output line and the label of the rule that
fired, if any. -/
def procLine (ln : List Char) : List Char × Option String :=
  let trimmed := trimStart ln
  if trimmed == [] || pfx ['#'] trimmed then (ln, none)
  else
    match tryRewriteSingle trimmed with
    | some r => (ln.takeWhile jsWs ++ r.rewritten, some r.rule)
    | none => (ln, none)

/-- One step of the multi-line loop's state
`(rewrittenLines, anyRewritten, hitRules)`; labels are deduplicated in
first-hit order as in the source. -/
def mlStep (acc : List (List Char) × Bool × List String) (ln : List Char) :
    List (List Char) × Bool × List String :=
  match procLine ln with
  | (out, some lbl) =>
      (acc.1 ++ [out], true,
       if acc.2.2.contains lbl then acc.2.2 else acc.2.2 ++ [lbl])
  | (out, none) => (acc.1 ++ [out], acc.2.1, acc.2.2)

/-- `", "`-join of the hit-rule labels. -/
def joinComma : List String → String
  | [] => ""
  | [s] => s
  | s :: ss => s ++ ", " ++ joinComma ss

/-- `tryRewrite` (source): single-line fast path, global heredoc
rejection for multi-line blocks, then continuation-merge and per-logical-
line rewriting reassembled by the original line breaks. -/
def tryRewrite (command : List Char) : Option RwRes :=
  if !command.contains '\n' then tryRewriteSingle command
  else if hasHeredoc command then none
  else
    let logical := mergeContLines (splitNl command)
    let st := logical.foldl mlStep ([], false, [])
    if st.2.1 then some ⟨joinNl st.1, joinComma st.2.2⟩ else none

-- ── Spec-side characterisation of a valid environment prefix (claim C5) ─────

/-- The body does not begin with a space character. -/
def noSpaceHead : List Char → Bool
  | c :: _ => !(c == ' ')
  | [] => true

/-- Spec wording of one environment assignment: `IDENTIFIER=value`
followed by required whitespace — an identifier (letter/underscore then
letters/digits/underscores), `=`, a value with no space characters, and a
nonempty run of spaces. -/
def ValidAssign (g : List Char) : Prop :=
  ∃ i v sp, g = i ++ '=' :: v ++ sp ∧
    (∃ c t, i = c :: t ∧ isIdentStart c = true ∧ ∀ ch ∈ t, isIdentChar ch = true) ∧
    (∀ ch ∈ v, ¬ ch = ' ') ∧ sp ≠ [] ∧ (∀ ch ∈ sp, ch = ' ')

/-- Spec wording of a valid environment prefix: a nonempty run of valid
assignments. -/
def ValidEnvPrefix (p : List Char) : Prop :=
  ∃ gs : List (List Char), gs ≠ [] ∧ p = gs.flatten ∧ ∀ g ∈ gs, ValidAssign g

/-- The last physical line (if any) ends in a continuation backslash. -/
def lastEndsBS (ls : List (List Char)) : Bool :=
  match ls.getLast? with
  | some l => endsBS l
  | none => false

-- ── Shared helper lemmas ────────────────────────────────────────────────────

theorem pfx_exists {kw s : List Char} (h : pfx kw s = true) : ∃ t, s = kw ++ t := by
  induction kw generalizing s with
  | nil => exact ⟨s, rfl⟩
  | cons a as ih =>
    cases s with
    | nil => simp [pfx] at h
    | cons b bs =>
      simp only [pfx, Bool.and_eq_true, beq_iff_eq] at h
      obtain ⟨t, ht⟩ := ih h.2
      exact ⟨t, by simp [h.1, ht]⟩

theorem kwWs1_shape {kw s : List Char} (h : kwWs1 kw s = true) :
    ∃ c r, s = kw ++ c :: r ∧ jsWs c = true := by
  simp only [kwWs1, Bool.and_eq_true] at h
  obtain ⟨t, ht⟩ := pfx_exists h.1
  have h2 := h.2
  rw [ht, List.drop_left] at h2
  cases t with
  | nil => simp [ws1] at h2
  | cons c r => exact ⟨c, r, ht, h2⟩

theorem rl_skip {r : RewriteRule} {rs : List RewriteRule} {body : List Char}
    (h : r.matchFn body = false) :
    rulesLoop (r :: rs) body = rulesLoop rs body := by
  simp [rulesLoop, h]

theorem rl_noop {r : RewriteRule} {rs : List RewriteRule} {body : List Char}
    (h1 : r.matchFn body = true) (h2 : (r.rewriteFn body == body) = true) :
    rulesLoop (r :: rs) body = rulesLoop rs body := by
  simp [rulesLoop, h1, h2]

/-- On a body of the shape `grep<ws>…` only the grep/rg rule of the table
matches, and when `translateGrep` declines, its rewrite is the identity,
so the whole rule walk yields nothing. -/
theorem loopNone_grep (c : Char) (r : List Char) (hc : jsWs c = true)
    (hg : translateGrep ('g' :: 'r' :: 'e' :: 'p' :: c :: r) = none) :
    rulesLoop rules ('g' :: 'r' :: 'e' :: 'p' :: c :: r) = none := by
  unfold rules
  repeat rw [rl_skip rfl]
  rw [rl_noop hc (by
    show ((translateGrep ('g' :: 'r' :: 'e' :: 'p' :: c :: r)).getD _ == _) = true
    rw [hg]; simp)]
  repeat rw [rl_skip rfl]
  rfl

/-- Same as `loopNone_grep` for a body of the shape `rg<ws>…`. -/
theorem loopNone_rg (c : Char) (r : List Char) (hc : jsWs c = true)
    (hg : translateGrep ('r' :: 'g' :: c :: r) = none) :
    rulesLoop rules ('r' :: 'g' :: c :: r) = none := by
  unfold rules
  repeat rw [rl_skip rfl]
  rw [rl_noop (show (jsWs c || kwWs1 "grep".data ('r' :: 'g' :: c :: r)) = true by rw [hc]; rfl) (by
    show ((translateGrep ('r' :: 'g' :: c :: r)).getD _ == _) = true
    rw [hg]; simp)]
  repeat rw [rl_skip rfl]
  rfl

/-- On a body of the shape `find<ws>…` only the find rule matches, and
when `translateFind` declines the walk yields nothing. -/
theorem loopNone_find (c : Char) (r : List Char) (hc : jsWs c = true)
    (hf : translateFind ('f' :: 'i' :: 'n' :: 'd' :: c :: r) = none) :
    rulesLoop rules ('f' :: 'i' :: 'n' :: 'd' :: c :: r) = none := by
  unfold rules
  repeat rw [rl_skip rfl]
  rw [rl_noop hc (by
    show ((translateFind ('f' :: 'i' :: 'n' :: 'd' :: c :: r)).getD _ == _) = true
    rw [hf]; simp)]
  repeat rw [rl_skip rfl]
  rfl

/-- On a body of the shape `git<ws>…` whose extracted sub-command is not
in the allow-list, no rule of the table matches. -/
theorem loopNone_git (c : Char) (r : List Char) (hc : jsWs c = true)
    (hng : GIT_SUBCMDS.contains (gitSubcmd ('g' :: 'i' :: 't' :: c :: r)) = false) :
    rulesLoop rules ('g' :: 'i' :: 't' :: c :: r) = none := by
  unfold rules
  rw [rl_skip (show (jsWs c && GIT_SUBCMDS.contains (gitSubcmd ('g' :: 'i' :: 't' :: c :: r))) = false by
    rw [hc, hng]; rfl)]
  repeat rw [rl_skip rfl]
  rfl

/-- Engine-level consequence for grep/rg bodies on which the translator
declines: no rewrite happens. -/
theorem engine_none_grep (cmd : List Char)
    (hm : grepRgMatch ((splitEnvPrefix cmd).2) = true)
    (ht : translateGrep ((splitEnvPrefix cmd).2) = none) :
    tryRewriteSingle cmd = none := by
  unfold tryRewriteSingle
  cases h1 : rtkStart cmd with
  | true => simp [h1]
  | false =>
    cases h2 : hasHeredoc cmd with
    | true => simp [h1, h2]
    | false =>
      simp only [h1, h2, Bool.false_eq_true, if_false]
      have hloop : rulesLoop rules ((splitEnvPrefix cmd).2) = none := by
        rcases (Bool.or_eq_true _ _).mp hm with hrg | hgrep
        · obtain ⟨c, r, hs, hc⟩ := kwWs1_shape hrg
          rw [hs]; rw [hs] at ht
          exact loopNone_rg c r hc ht
        · obtain ⟨c, r, hs, hc⟩ := kwWs1_shape hgrep
          rw [hs]; rw [hs] at ht
          exact loopNone_grep c r hc ht
      rw [hloop]

/-- Engine-level consequence for find bodies on which the translator
declines: no rewrite happens. -/
theorem engine_none_find (cmd : List Char)
    (hm : kwWs1 "find".data ((splitEnvPrefix cmd).2) = true)
    (ht : translateFind ((splitEnvPrefix cmd).2) = none) :
    tryRewriteSingle cmd = none := by
  unfold tryRewriteSingle
  cases h1 : rtkStart cmd with
  | true => simp [h1]
  | false =>
    cases h2 : hasHeredoc cmd with
    | true => simp [h1, h2]
    | false =>
      simp only [h1, h2, Bool.false_eq_true, if_false]
      have hloop : rulesLoop rules ((splitEnvPrefix cmd).2) = none := by
        obtain ⟨c, r, hs, hc⟩ := kwWs1_shape hm
        rw [hs]; rw [hs] at ht
        exact loopNone_find c r hc ht
      rw [hloop]

/-- Engine-level consequence for git bodies whose sub-command is outside
the allow-list: no rewrite happens. -/
theorem engine_none_git (cmd : List Char)
    (hm : kwWs1 "git".data ((splitEnvPrefix cmd).2) = true)
    (hng : GIT_SUBCMDS.contains (gitSubcmd ((splitEnvPrefix cmd).2)) = false) :
    tryRewriteSingle cmd = none := by
  unfold tryRewriteSingle
  cases h1 : rtkStart cmd with
  | true => simp [h1]
  | false =>
    cases h2 : hasHeredoc cmd with
    | true => simp [h1, h2]
    | false =>
      simp only [h1, h2, Bool.false_eq_true, if_false]
      have hloop : rulesLoop rules ((splitEnvPrefix cmd).2) = none := by
        obtain ⟨c, r, hs, hc⟩ := kwWs1_shape hm
        rw [hs]; rw [hs] at hng
        exact loopNone_git c r hc hng
      rw [hloop]

theorem beq_false_of_dash {x tok : List Char} (hx : dashHead x = true) (h : dashHead tok = false) :
    (x == tok) = false := by
  cases x with
  | nil => simp [dashHead] at hx
  | cons a as =>
    cases tok with
    | nil => rfl
    | cons c t =>
      have ha : a = '-' := by simpa [dashHead] using hx
      have hc : ¬ c = '-' := by simpa [dashHead] using h
      have hac : (a == c) = false := by
        rw [beq_eq_false_iff_ne, ha]
        exact fun e => hc e.symm
      show (a == c && as == t) = false
      rw [hac]
      rfl

theorem beq_dash_right_false {tok x : List Char} (hx : dashHead x = true)
    (h : dashHead tok = false) : (tok == x) = false := by
  cases x with
  | nil => simp [dashHead] at hx
  | cons a as =>
    cases tok with
    | nil => rfl
    | cons c t =>
      have ha : a = '-' := by simpa [dashHead] using hx
      have hc : (c == '-') = false := by simpa [dashHead] using h
      show (c == a && t == as) = false
      rw [ha, hc]
      rfl

theorem contains_false_of_dash {L : List (List Char)} {tok : List Char}
    (hL : ∀ x ∈ L, dashHead x = true) (h : dashHead tok = false) :
    L.contains tok = false := by
  induction L with
  | nil => rfl
  | cons x L ih =>
    show List.elem tok (x :: L) = false
    rw [List.elem_cons]
    rw [beq_dash_right_false (hL x (by simp)) h]
    exact ih (fun y hy => hL y (by simp [hy]))

theorem combinedShort_false_of_dash {tok : List Char} (h : dashHead tok = false) :
    combinedShort tok = false := by
  cases tok with
  | nil => rfl
  | cons c t =>
    have hc : (c == '-') = false := by simpa [dashHead] using h
    show ((c == '-' && decide (2 ≤ t.length) && t.all Char.isAlpha) && !(pfx ['-', '-'] (c :: t))) = false
    rw [hc]
    rfl

theorem includeEq_false_of_dash {tok : List Char} (h : dashHead tok = false) :
    includeEq tok = false := by
  cases tok with
  | nil => rfl
  | cons c t =>
    have hc : ¬ c = '-' := by simpa [dashHead] using h
    have hdc : ('-' == c) = false := by
      rw [beq_eq_false_iff_ne]; exact fun e => hc e.symm
    show (('-' == c && pfx "-include=".data t) && decide (10 < (c :: t).length)) = false
    rw [hdc]
    rfl

theorem grepLoop_steps_aux {tok : List Char} (h : dashHead tok = false) :
    combinedShort tok = false ∧ (tok == "-r".data) = false ∧ (tok == "-R".data) = false ∧
    (tok == "--recursive".data) = false ∧ includeEq tok = false ∧
    (tok == "--include".data) = false ∧ ARG_FLAGS.contains tok = false := by
  exact ⟨combinedShort_false_of_dash h,
    beq_dash_right_false rfl h, beq_dash_right_false rfl h, beq_dash_right_false rfl h,
    includeEq_false_of_dash h, beq_dash_right_false rfl h,
    contains_false_of_dash (by decide) h⟩

theorem grepLoop_first_pos {path : Option (List Char)} {extra : List (List Char)}
    {tok : List Char} {rest : List (List Char)} (h : dashHead tok = false) :
    grepLoop none path extra (tok :: rest) = grepLoop (some tok) path extra rest := by
  obtain ⟨h1, h2, h3, h4, h5, h6, h7⟩ := grepLoop_steps_aux h
  have h7m : ¬ tok ∈ ARG_FLAGS := by simpa using h7
  cases rest with
  | nil => simp [grepLoop, h1, h2, h3, h4, h5, h]
  | cons v vs => simp [grepLoop, h1, h2, h3, h4, h5, h6, h7m, h]

theorem grepLoop_second_pos {p : List Char} {extra : List (List Char)}
    {tok : List Char} {rest : List (List Char)} (h : dashHead tok = false) :
    grepLoop (some p) none extra (tok :: rest) = grepLoop (some p) (some tok) extra rest := by
  obtain ⟨h1, h2, h3, h4, h5, h6, h7⟩ := grepLoop_steps_aux h
  have h7m : ¬ tok ∈ ARG_FLAGS := by simpa using h7
  cases rest with
  | nil => simp [grepLoop, h1, h2, h3, h4, h5, h]
  | cons v vs => simp [grepLoop, h1, h2, h3, h4, h5, h6, h7m, h]

theorem grepLoop_third_pos {p q : List Char} {extra : List (List Char)}
    {tok : List Char} {rest : List (List Char)} (h : dashHead tok = false) :
    grepLoop (some p) (some q) extra (tok :: rest) = none := by
  obtain ⟨h1, h2, h3, h4, h5, h6, h7⟩ := grepLoop_steps_aux h
  have h7m : ¬ tok ∈ ARG_FLAGS := by simpa using h7
  cases rest with
  | nil => simp [grepLoop, h1, h2, h3, h4, h5, h]
  | cons v vs => simp [grepLoop, h1, h2, h3, h4, h5, h6, h7m, h]

theorem findLoop_discard {name ftype : Option (List Char)} {p tok : List Char}
    {rest : List (List Char)} (h : dashHead tok = false) :
    findLoop name (some p) ftype (tok :: rest) = findLoop name (some p) ftype rest := by
  have h1 : (tok == "-name".data) = false := beq_dash_right_false rfl h
  have h2 : (tok == "-iname".data) = false := beq_dash_right_false rfl h
  have h3 : (tok == "-type".data) = false := beq_dash_right_false rfl h
  have h4 : (tok == "-maxdepth".data) = false := beq_dash_right_false rfl h
  have h5 : (tok == "-mindepth".data) = false := beq_dash_right_false rfl h
  cases rest with
  | nil => simp [findLoop, h1, h2, h]
  | cons v vs => simp [findLoop, h1, h2, h3, h4, h5, h]

-- ── Claim theorems ──────────────────────────────────────────────────────────

/-- C1: the grep/ripgrep structural translator turns
`grep -rn "pattern" dir/` into the replacement tool's positional form
with pattern `pattern` and path `dir/`, the recursion letter dropped from
the `-rn` cluster (leaving `-n`); and it converts `--include="*.gd"` into
the two-token `--glob "*.gd"` form with `x` as pattern and `dir/` as
path. -/
theorem C1_grep_translation :
    translateGrep "grep -rn \"pattern\" dir/".data =
      some "rtk grep pattern dir/ -n".data ∧
    translateGrep "grep --include=\"*.gd\" \"x\" dir/".data =
      some "rtk grep x dir/ --glob *.gd".data := by
  constructor <;> decide

/-- C2: in the grep/ripgrep translator's token loop, the first non-flag
token reached becomes the pattern, the second becomes the path, and a
third aborts the whole translation (`none`); and whenever the body of a
command is a grep/rg invocation on which the translator declines, the
engine performs no rewrite at all, leaving the command unmodified. -/
theorem C2_grep_positionals :
    (∀ (path : Option (List Char)) (extra : List (List Char)) (tok : List Char)
        (rest : List (List Char)), dashHead tok = false →
        grepLoop none path extra (tok :: rest) = grepLoop (some tok) path extra rest) ∧
    (∀ (p : List Char) (extra : List (List Char)) (tok : List Char)
        (rest : List (List Char)), dashHead tok = false →
        grepLoop (some p) none extra (tok :: rest) = grepLoop (some p) (some tok) extra rest) ∧
    (∀ (p q : List Char) (extra : List (List Char)) (tok : List Char)
        (rest : List (List Char)), dashHead tok = false →
        grepLoop (some p) (some q) extra (tok :: rest) = none) ∧
    (∀ body : List Char,
        grepLoop none none [] (shellTokenise (stripGrepRg (splitAtShellOp body).1)) = none →
        translateGrep body = none) ∧
    (∀ cmd : List Char, grepRgMatch ((splitEnvPrefix cmd).2) = true →
        translateGrep ((splitEnvPrefix cmd).2) = none →
        tryRewriteSingle cmd = none) := by
  refine ⟨fun _ _ _ _ h => grepLoop_first_pos h,
    fun _ _ _ _ h => grepLoop_second_pos h,
    fun _ _ _ _ _ h => grepLoop_third_pos h,
    ?_, engine_none_grep⟩
  intro body h
  cases hres : stripGrepRg (splitAtShellOp body).1 == ([] : List Char) with
  | true => simp only [translateGrep, hres, if_true]
  | false => simp only [translateGrep, hres, Bool.false_eq_true, if_false, h]

/-- Witness for C2 at `grep a b c`: the third positional `c` aborts and
the engine returns no rewrite. -/
theorem C2_grep_positionals_witness :
    grepLoop (some "a".data) (some "b".data) [] ["c".data] = none ∧
    translateGrep "grep a b c".data = none ∧
    tryRewriteSingle "grep a b c".data = none :=
  ⟨C2_grep_positionals.2.2.1 "a".data "b".data [] "c".data [] (by decide),
   C2_grep_positionals.2.2.2.1 "grep a b c".data (by decide),
   C2_grep_positionals.2.2.2.2 "grep a b c".data (by decide) (by decide)⟩

/-- C3: any `find` invocation whose token list contains a side-effecting
flag (`-exec`, `-execdir`, `-delete`, `-print0`, `-ok`, `-fls`,
`-fprint`) is untranslatable, and the engine then returns no rewrite. -/
theorem C3_find_side_effect_flags :
    (∀ body : List Char,
        ((shellTokenise (stripFindKw (splitAtShellOp body).1)).any
          (fun t => DANGEROUS.contains t)) = true →
        translateFind body = none) ∧
    (∀ cmd : List Char, kwWs1 "find".data ((splitEnvPrefix cmd).2) = true →
        translateFind ((splitEnvPrefix cmd).2) = none →
        tryRewriteSingle cmd = none) := by
  refine ⟨?_, engine_none_find⟩
  intro body h
  cases hres : stripFindKw (splitAtShellOp body).1 == [] with
  | true => simp only [translateFind, hres, if_true]
  | false => simp only [translateFind, hres, Bool.false_eq_true, if_false, h, if_true]

/-- Witness for C3 at `find . -exec rm {} \;`: untranslatable and
returned verbatim (no rewrite). -/
theorem C3_find_side_effect_flags_witness :
    translateFind "find . -exec rm \x7b\x7d \\;".data = none ∧
    tryRewriteSingle "find . -exec rm \x7b\x7d \\;".data = none :=
  ⟨C3_find_side_effect_flags.1 "find . -exec rm \x7b\x7d \\;".data (by decide),
   C3_find_side_effect_flags.2 "find . -exec rm \x7b\x7d \\;".data (by decide) (by decide)⟩

/-- C4: every command containing the substring `<<` anywhere — single-
or multi-line — yields no rewrite. -/
theorem C4_heredoc_exclusion :
    ∀ cmd : List Char, hasHeredoc cmd = true → tryRewrite cmd = none := by
  intro cmd h
  unfold tryRewrite
  cases hn : cmd.contains '\n' with
  | false =>
    simp only [hn, Bool.not_false, if_true]
    unfold tryRewriteSingle
    cases h1 : rtkStart cmd with
    | true => simp [h1]
    | false => simp [h1, h]
  | true =>
    simp [hn, h]

/-- Witness for C4 at `cat <<EOF`. -/
theorem C4_heredoc_exclusion_witness :
    tryRewrite "cat <<EOF".data = none :=
  C4_heredoc_exclusion "cat <<EOF".data (by decide)

/-- C6: in the quote-aware scanner, a character inside quotes that is not
the closing quote — in particular a pipe — never splits the command; so
`grep "a|b" file` is scanned whole and translated whole, while the
unquoted pipe of `grep pattern file | head` splits the command there,
only the part before it being translated and the operator-and-tail
preserved verbatim. -/
theorem C6_quoted_pipe :
    (∀ (qc c : Char) (cs : List Char), ¬ c = qc →
        splitOpAux (some qc) (c :: cs) =
          (splitOpAux (some qc) cs).map (fun bt => (c :: bt.1, bt.2))) ∧
    splitAtShellOp "grep \"a|b\" file".data = ("grep \"a|b\" file".data, []) ∧
    tryRewriteSingle "grep \"a|b\" file".data =
      some ⟨"rtk grep a|b file".data, "grep/rg"⟩ ∧
    splitAtShellOp "grep pattern file | head".data =
      ("grep pattern file".data, " | head".data) ∧
    tryRewriteSingle "grep pattern file | head".data =
      some ⟨"rtk grep pattern file | head".data, "grep/rg"⟩ := by
  refine ⟨?_, by decide, by decide, by decide, by decide⟩
  intro qc c cs h
  have hb : (c == qc) = false := by rw [beq_eq_false_iff_ne]; exact h
  simp [splitOpAux, hb]

/-- Witness for C6: a quoted pipe steps through the scanner without
splitting. -/
theorem C6_quoted_pipe_witness :
    ¬ '|' = '"' ∧
    splitOpAux (some '"') ['|', 'x'] =
      (splitOpAux (some '"') ['x']).map (fun bt => ('|' :: bt.1, bt.2)) :=
  ⟨by decide, C6_quoted_pipe.1 '"' '|' ['x'] (by decide)⟩

/-- C8: `git -C /tmp status` resolves its sub-command to `status`
(the `-C <path>` pair is stripped) and is rewritten; every git command
whose extracted sub-command is outside the allow-list is not rewritten. -/
theorem C8_git_rule_priority :
    tryRewriteSingle "git -C /tmp status".data =
      some ⟨"rtk git -C /tmp status".data, "git"⟩ ∧
    (∀ cmd : List Char, kwWs1 "git".data ((splitEnvPrefix cmd).2) = true →
        GIT_SUBCMDS.contains (gitSubcmd ((splitEnvPrefix cmd).2)) = false →
        tryRewriteSingle cmd = none) :=
  ⟨by decide, engine_none_git⟩

/-- Witness for C8 at `git clone url` (sub-command `clone` is not
allow-listed): no rewrite. -/
theorem C8_git_rule_priority_witness :
    tryRewriteSingle "git clone url".data = none :=
  C8_git_rule_priority.2 "git clone url".data (by decide) (by decide)

/-- C10: the find translator silently discards every non-flag token after
the first one — with the path already set, a further non-flag token is
consumed with no effect — so `find dir1 dir2 -name x` translates with
`dir2` absent from the output, while the grep translator aborts on its
third positional. -/
theorem C10_find_discard :
    (∀ (name ftype : Option (List Char)) (p tok : List Char)
        (rest : List (List Char)), dashHead tok = false →
        findLoop name (some p) ftype (tok :: rest) = findLoop name (some p) ftype rest) ∧
    translateFind "find dir1 dir2 -name x".data = some "rtk find x dir1".data ∧
    translateGrep "grep a b c".data = none :=
  ⟨fun _ _ _ _ _ h => findLoop_discard h, by decide, by decide⟩

/-- Witness for C10: the second positional `dir2` is dropped by the
loop. -/
theorem C10_find_discard_witness :
    findLoop none (some ".".data) none ["dir2".data] = some (none, some ".".data, none) := by
  rw [C10_find_discard.1 none none ".".data "dir2".data [] (by decide)]
  rfl

/-- C7 counterexample: the scanner and the tokenizer give a backslash no
escaping power.  In `echo \| x` the backslash-preceded pipe is still
classified as an operator and splits the command; in `a\"b c` the
backslash-preceded double quote still toggles quote state, so the
tokenizer emits the single token `a\b c` spanning the space. -/
theorem C7_backslash_cex :
    splitAtShellOp "echo \\| x".data = ("echo \\".data, " | x".data) ∧
    splitAtShellOp "echo \\| x".data ≠ ("echo \\| x".data, []) ∧
    shellTokenise "a\\\"b c".data = ["a\\b c".data] := by
  refine ⟨by decide, by decide, by decide⟩

/-- C7 amended: a backslash is an ordinary character with no escaping
effect — both scanners step over it keeping their quote state, the
character after it is interpreted by the quote state alone; scanning is
total: a trailing backslash is kept literally and an unterminated quote
continues to end-of-string. -/
theorem C7_backslash_amended :
    (∀ (q : Option Char) (cs : List Char),
        q = none ∨ q = some '"' ∨ q = some '\'' →
        splitOpAux q ('\\' :: cs) =
          (splitOpAux q cs).map (fun bt => ('\\' :: bt.1, bt.2))) ∧
    (∀ (q : Option Char) (cur cs : List Char),
        q = none ∨ q = some '"' ∨ q = some '\'' →
        tokAux q cur ('\\' :: cs) = tokAux q (cur ++ ['\\']) cs) ∧
    shellTokenise "ab\\".data = ["ab\\".data] ∧
    shellTokenise "\"ab".data = ["ab".data] := by
  refine ⟨?_, ?_, by decide, by decide⟩
  · rintro q cs (rfl | rfl | rfl) <;> rfl
  · rintro q cur cs (rfl | rfl | rfl) <;> rfl

/-- Witness for C7's amended claim in the unquoted state. -/
theorem C7_backslash_amended_witness :
    splitOpAux none ['\\'] = (splitOpAux none []).map (fun bt => ('\\' :: bt.1, bt.2)) ∧
    tokAux none [] ['\\'] = tokAux none ['\\'] [] :=
  ⟨C7_backslash_amended.1 none [] (Or.inl rfl),
   C7_backslash_amended.2.1 none [] [] (Or.inl rfl)⟩

theorem takeWhile_append_all {α : Type} {p : α → Bool} {xs ys : List α}
    (h : ∀ x ∈ xs, p x = true) :
    (xs ++ ys).takeWhile p = xs ++ ys.takeWhile p := by
  induction xs with
  | nil => simp
  | cons a as ih =>
    have ha := h a (by simp)
    simp [List.takeWhile_cons, ha, ih (fun x hx => h x (by simp [hx]))]

theorem dropWhile_append_all {α : Type} {p : α → Bool} {xs ys : List α}
    (h : ∀ x ∈ xs, p x = true) :
    (xs ++ ys).dropWhile p = ys.dropWhile p := by
  induction xs with
  | nil => simp
  | cons a as ih =>
    have ha := h a (by simp)
    simp [List.dropWhile_cons, ha, ih (fun x hx => h x (by simp [hx]))]

theorem envAssign1_append {g rest : List Char} (hg : ValidAssign g)
    (hr : noSpaceHead rest = true) : envAssign1 (g ++ rest) = some (g, rest) := by
  obtain ⟨i, v, sp, hgeq, ⟨c, t, hi, hstart, htail⟩, hv, hspne, hsp⟩ := hg
  subst hgeq hi
  obtain ⟨c0, sp', hsp'⟩ : ∃ c0 sp', sp = c0 :: sp' := by
    cases sp with
    | nil => exact absurd rfl hspne
    | cons a b => exact ⟨a, b, rfl⟩
  have hc0 : c0 = ' ' := hsp c0 (by simp [hsp'])
  have hshape : ((c :: t) ++ '=' :: v ++ sp) ++ rest
      = c :: (t ++ '=' :: (v ++ (sp ++ rest))) := by simp
  rw [hshape]
  have h1 : (t ++ '=' :: (v ++ (sp ++ rest))).takeWhile isIdentChar = t := by
    rw [takeWhile_append_all htail]
    simp [List.takeWhile_cons, show isIdentChar '=' = false from rfl]
  have h2 : (t ++ '=' :: (v ++ (sp ++ rest))).dropWhile isIdentChar
      = '=' :: (v ++ (sp ++ rest)) := by
    rw [dropWhile_append_all htail]
    simp [List.dropWhile_cons, show isIdentChar '=' = false from rfl]
  have hvall : ∀ ch ∈ v, (!(ch == ' ')) = true := by
    intro ch hch
    simpa using hv ch hch
  have h3 : (v ++ (sp ++ rest)).takeWhile (fun ch => !(ch == ' ')) = v := by
    rw [takeWhile_append_all hvall, hsp', hc0]
    simp [List.takeWhile_cons]
  have h4 : (v ++ (sp ++ rest)).dropWhile (fun ch => !(ch == ' ')) = sp ++ rest := by
    rw [dropWhile_append_all hvall, hsp', hc0]
    simp [List.dropWhile_cons]
  have hspall : ∀ ch ∈ sp, (ch == ' ') = true := by
    intro ch hch
    simp [hsp ch hch]
  have hrest0 : rest.takeWhile (fun ch => ch == ' ') = [] := by
    cases rest with
    | nil => simp
    | cons r0 rs =>
      have hb : (r0 == ' ') = false := by
        have := hr
        simp only [noSpaceHead, Bool.not_eq_true'] at this
        exact this
      simp [List.takeWhile_cons, hb]
  have hrest1 : rest.dropWhile (fun ch => ch == ' ') = rest := by
    cases rest with
    | nil => simp
    | cons r0 rs =>
      have hb : (r0 == ' ') = false := by
        have := hr
        simp only [noSpaceHead, Bool.not_eq_true'] at this
        exact this
      simp [List.dropWhile_cons, hb]
  have h5 : (sp ++ rest).takeWhile (fun ch => ch == ' ') = sp := by
    rw [takeWhile_append_all hspall, hrest0, List.append_nil]
  have h6 : (sp ++ rest).dropWhile (fun ch => ch == ' ') = rest := by
    rw [dropWhile_append_all hspall, hrest1]
  have hspe : (sp == ([] : List Char)) = false := by
    rw [hsp']; rfl
  simp only [envAssign1, hstart, if_true, h1, h2, h3, h4, h5, h6, hspe,
    Bool.false_eq_true, if_false, if_pos rfl]

theorem envAssign1_consumed {cs g rest : List Char}
    (h : envAssign1 cs = some (g, rest)) : g ++ rest = cs ∧ rest.length < cs.length := by
  cases cs with
  | nil => simp [envAssign1] at h
  | cons c cs0 =>
    by_cases hs : isIdentStart c = true
    · simp only [envAssign1, hs, if_true] at h
      cases hdw : cs0.dropWhile isIdentChar with
      | nil => rw [hdw] at h; exact absurd h (by simp)
      | cons d r2 =>
        rw [hdw] at h
        by_cases hd : d = '='
        · subst hd
          simp only [if_pos rfl] at h
          by_cases hsp : ((r2.dropWhile (fun ch => !(ch == ' '))).takeWhile (fun ch => ch == ' ') == ([] : List Char)) = true
          · rw [if_pos hsp] at h
            exact absurd h (by simp)
          · rw [if_neg hsp] at h
            have h' := Option.some.inj h
            have hg := congrArg Prod.fst h'
            have hr := congrArg Prod.snd h'
            simp only at hg hr
            subst hg hr
            have e3 : (r2.dropWhile (fun ch => !(ch == ' '))).takeWhile (fun ch => ch == ' ') ++
                (r2.dropWhile (fun ch => !(ch == ' '))).dropWhile (fun ch => ch == ' ') =
                r2.dropWhile (fun ch => !(ch == ' ')) := List.takeWhile_append_dropWhile _ _
            have e2 : r2.takeWhile (fun ch => !(ch == ' ')) ++ r2.dropWhile (fun ch => !(ch == ' ')) = r2 :=
              List.takeWhile_append_dropWhile _ _
            have e1 : cs0.takeWhile isIdentChar ++ cs0.dropWhile isIdentChar = cs0 :=
              List.takeWhile_append_dropWhile _ _
            have heq : (c :: cs0.takeWhile isIdentChar ++ '=' :: r2.takeWhile (fun ch => !(ch == ' ')) ++
                (r2.dropWhile (fun ch => !(ch == ' '))).takeWhile (fun ch => ch == ' ')) ++
                (r2.dropWhile (fun ch => !(ch == ' '))).dropWhile (fun ch => ch == ' ') = c :: cs0 := by
              simp only [List.cons_append, List.append_assoc, List.cons.injEq, true_and]
              rw [e3, e2, ← hdw]
              exact e1
            refine ⟨heq, ?_⟩
            have hlen := congrArg List.length heq
            simp only [List.length_append, List.length_cons] at hlen
            simp only [List.length_cons]
            omega
        · simp only [if_neg hd] at h
          exact absurd h (by simp)
    · simp only [envAssign1, hs] at h
      exact absurd h (by simp)

theorem envSplitF_reversible : ∀ (n : Nat) (cs : List Char),
    (envSplitF n cs).1 ++ (envSplitF n cs).2 = cs := by
  intro n
  induction n with
  | zero => intro cs; rfl
  | succ n ih =>
    intro cs
    cases ha : envAssign1 cs with
    | none => simp [envSplitF, ha]
    | some gr =>
      obtain ⟨g, rest⟩ := gr
      have hc := (envAssign1_consumed ha).1
      simp only [envSplitF, ha]
      rw [List.append_assoc, ih rest, hc]

theorem envAssign1_none_split {cs : List Char} (h : envAssign1 cs = none) :
    ∀ n, envSplitF n cs = ([], cs) := by
  intro n
  cases n with
  | zero => rfl
  | succ n => simp [envSplitF, h]

theorem noSpaceHead_validPrefix_append {gs : List (List Char)} {b : List Char}
    (hall : ∀ g ∈ gs, ValidAssign g) (hb : noSpaceHead b = true) :
    noSpaceHead (gs.flatten ++ b) = true := by
  cases gs with
  | nil => simpa
  | cons g gs' =>
    obtain ⟨i, v, sp, hgeq, ⟨c, t, hi, hstart, _⟩, _, _, _⟩ := hall g (by simp)
    subst hgeq hi
    have hcs : (c == ' ') = false := by
      rw [beq_eq_false_iff_ne]
      intro he
      rw [he] at hstart
      exact absurd hstart (by decide)
    simp [List.flatten_cons, List.cons_append, noSpaceHead, hcs]

theorem validAssign_ne_nil {g : List Char} (h : ValidAssign g) : g ≠ [] := by
  obtain ⟨i, v, sp, hgeq, ⟨c, t, hi, _, _⟩, _, _, _⟩ := h
  subst hgeq hi
  simp

theorem envSplitF_valid : ∀ (gs : List (List Char)) (b : List Char) (n : Nat),
    (∀ g ∈ gs, ValidAssign g) → noSpaceHead b = true → envAssign1 b = none →
    gs.flatten.length + b.length ≤ n →
    envSplitF n (gs.flatten ++ b) = (gs.flatten, b) := by
  intro gs
  induction gs with
  | nil =>
    intro b n _ hb hnb hn
    simpa using envAssign1_none_split hnb n
  | cons g gs' ih =>
    intro b n hall hb hnb hn
    have hva := hall g (by simp)
    have hgne := validAssign_ne_nil hva
    have hg1 : 1 ≤ g.length := by
      cases g with
      | nil => exact absurd rfl hgne
      | cons a l => simp
    cases n with
    | zero =>
      exfalso
      simp only [List.flatten_cons, List.length_append, Nat.le_zero] at hn
      omega
    | succ n =>
      have hns : noSpaceHead (gs'.flatten ++ b) = true :=
        noSpaceHead_validPrefix_append (fun x hx => hall x (by simp [hx])) hb
      have ha : envAssign1 (g ++ (gs'.flatten ++ b)) = some (g, gs'.flatten ++ b) :=
        envAssign1_append hva hns
      have hflat : (g :: gs').flatten ++ b = g ++ (gs'.flatten ++ b) := by simp
      rw [hflat]
      simp only [envSplitF, ha]
      rw [ih b n (fun x hx => hall x (by simp [hx])) hb hnb (by
        simp only [List.flatten_cons, List.length_append] at hn
        omega)]
      simp [List.flatten_cons]

theorem validAssign_A1 : ValidAssign "A=1 ".data :=
  ⟨"A".data, "1".data, " ".data, by decide,
   ⟨'A', [], by decide, by decide, by simp⟩, by decide, by decide, by decide⟩

theorem validEnvPrefix_A1 : ValidEnvPrefix "A=1 ".data :=
  ⟨["A=1 ".data], by simp, by simp, by
    intro g hg
    rw [List.mem_singleton] at hg
    subst hg
    exact validAssign_A1⟩

/-- C5 counterexample: the claim fails when the body begins with a space.
With the valid prefix `A=1 ` and the body ` ls` (which has no leading
assignment), the greedy ` +` of the splitter absorbs the body's leading
space into the prefix: `split("A=1  ls") = ("A=1  ", "ls")`, not
`("A=1 ", " ls")`. -/
theorem C5_env_split_cex :
    ValidEnvPrefix "A=1 ".data ∧ envAssign1 " ls".data = none ∧
    noSpaceHead " ls".data = false ∧
    splitEnvPrefix ("A=1 ".data ++ " ls".data) ≠ ("A=1 ".data, " ls".data) :=
  ⟨validEnvPrefix_A1, by decide, by decide, by decide⟩

/-- C5 amended: environment-prefix splitting is reversible
(`prefix ++ remainder` reconstructs every input exactly); for every valid
environment prefix and every body that has no leading assignment *and
does not begin with a space character*, `split (prefix ++ body) =
(prefix, body)`; and splitting a string with no leading assignment
returns an empty prefix and the string unchanged. -/
theorem C5_env_split_amended :
    (∀ cmd : List Char, (splitEnvPrefix cmd).1 ++ (splitEnvPrefix cmd).2 = cmd) ∧
    (∀ p b : List Char, ValidEnvPrefix p → noSpaceHead b = true → envAssign1 b = none →
        splitEnvPrefix (p ++ b) = (p, b)) ∧
    (∀ cmd : List Char, envAssign1 cmd = none → splitEnvPrefix cmd = ([], cmd)) := by
  refine ⟨fun cmd => envSplitF_reversible _ _, ?_, fun cmd h => envAssign1_none_split h _⟩
  intro p b hp hb hnb
  obtain ⟨gs, hne, hpe, hall⟩ := hp
  subst hpe
  exact envSplitF_valid gs b _ hall hb hnb (by simp [List.length_append])

/-- Witness for C5's amended claim at concrete inputs. -/
theorem C5_env_split_amended_witness :
    (splitEnvPrefix "X=1 ls".data).1 ++ (splitEnvPrefix "X=1 ls".data).2 = "X=1 ls".data ∧
    splitEnvPrefix ("A=1 ".data ++ "ls".data) = ("A=1 ".data, "ls".data) ∧
    splitEnvPrefix "ls -la".data = ([], "ls -la".data) :=
  ⟨C5_env_split_amended.1 "X=1 ls".data,
   C5_env_split_amended.2.1 "A=1 ".data "ls".data validEnvPrefix_A1 (by decide) (by decide),
   C5_env_split_amended.2.2 "ls -la".data (by decide)⟩

theorem splitNl_ne_nil : ∀ cs : List Char, splitNl cs ≠ [] := by
  intro cs
  induction cs with
  | nil => simp [splitNl]
  | cons c cs ih =>
    simp only [splitNl]
    cases hc : c == '\n' with
    | true => simp
    | false =>
      simp only [Bool.false_eq_true, if_false]
      cases splitNl cs with
      | nil => simp
      | cons l ls => simp

theorem joinNl_splitNl : ∀ cs : List Char, joinNl (splitNl cs) = cs := by
  intro cs
  induction cs with
  | nil => rfl
  | cons c cs ih =>
    simp only [splitNl]
    cases hc : c == '\n' with
    | true =>
      have hceq : c = '\n' := by simpa using hc
      simp only [if_true]
      cases hr : splitNl cs with
      | nil => exact absurd hr (splitNl_ne_nil cs)
      | cons l ls =>
        show joinNl ([] :: l :: ls) = c :: cs
        rw [show joinNl ([] :: l :: ls) = [] ++ '\n' :: joinNl (l :: ls) from rfl]
        rw [← hr, ih, hceq]
        simp
    | false =>
      have hceq : ¬ c = '\n' := by simpa using hc
      simp only [Bool.false_eq_true, if_false]
      cases hr : splitNl cs with
      | nil => exact absurd hr (splitNl_ne_nil cs)
      | cons l ls =>
        cases ls with
        | nil =>
          show joinNl [c :: l] = c :: cs
          rw [show joinNl [c :: l] = c :: l from rfl]
          rw [← ih, hr]
          rfl
        | cons l2 ls2 =>
          show joinNl ((c :: l) :: l2 :: ls2) = c :: cs
          rw [show joinNl ((c :: l) :: l2 :: ls2) = (c :: l) ++ '\n' :: joinNl (l2 :: ls2) from rfl]
          rw [← ih, hr]
          rfl

theorem mergeAux_ne_nil : ∀ (ls : List (List Char)) (buf : List Char),
    ls ≠ [] ∨ buf ≠ [] → mergeAux buf ls ≠ [] := by
  intro ls
  induction ls with
  | nil =>
    intro buf h
    rcases h with h | h
    · exact absurd rfl h
    · have hb : (buf == ([] : List Char)) = false := by simpa using h
      simp [mergeAux, hb]
  | cons ln rest ih =>
    intro buf _
    cases hbs : endsBS ln with
    | true =>
      simp only [mergeAux, hbs, if_true]
      exact ih _ (Or.inr (by simp))
    | false =>
      simp [mergeAux, hbs]

theorem joinNl_mergeAux : ∀ (ls : List (List Char)) (buf : List Char), ls ≠ [] →
    lastEndsBS ls = false → joinNl (mergeAux buf ls) = buf ++ joinNl ls := by
  intro ls
  induction ls with
  | nil => intro buf h _; exact absurd rfl h
  | cons ln rest ih =>
    intro buf _ hlast
    cases rest with
    | nil =>
      have he : endsBS ln = false := by simpa [lastEndsBS] using hlast
      simp [mergeAux, he, joinNl]
    | cons ln2 rest2 =>
      have hlast2 : lastEndsBS (ln2 :: rest2) = false := by
        simpa [lastEndsBS, List.getLast?_cons_cons] using hlast
      cases hbs : endsBS ln with
      | true =>
        rw [show mergeAux buf (ln :: ln2 :: rest2) = mergeAux (buf ++ ln ++ ['\n']) (ln2 :: rest2) by
          simp [mergeAux, hbs]]
        rw [ih (buf ++ ln ++ ['\n']) (by simp) hlast2]
        rw [show joinNl (ln :: ln2 :: rest2) = ln ++ '\n' :: joinNl (ln2 :: rest2) from rfl]
        simp
      | false =>
        rw [show mergeAux buf (ln :: ln2 :: rest2) = (buf ++ ln) :: mergeAux [] (ln2 :: rest2) by
          simp [mergeAux, hbs]]
        have hm := mergeAux_ne_nil (ln2 :: rest2) [] (Or.inl (by simp))
        cases hM : mergeAux [] (ln2 :: rest2) with
        | nil => exact absurd hM hm
        | cons m ms =>
          show joinNl ((buf ++ ln) :: m :: ms) = buf ++ joinNl (ln :: ln2 :: rest2)
          rw [show joinNl ((buf ++ ln) :: m :: ms) = (buf ++ ln) ++ '\n' :: joinNl (m :: ms) from rfl]
          rw [← hM, ih [] (by simp) hlast2]
          rw [show joinNl (ln :: ln2 :: rest2) = ln ++ '\n' :: joinNl (ln2 :: rest2) from rfl]
          simp

theorem mlStep_fst (acc : List (List Char) × Bool × List String) (ln : List Char) :
    (mlStep acc ln).1 = acc.1 ++ [(procLine ln).1] := by
  cases hp : procLine ln with
  | mk out lblo => cases lblo <;> simp [mlStep, hp]

theorem mlFold_fst : ∀ (ls : List (List Char)) (acc : List (List Char) × Bool × List String),
    (ls.foldl mlStep acc).1 = acc.1 ++ ls.map (fun ln => (procLine ln).1) := by
  intro ls
  induction ls with
  | nil => intro acc; simp
  | cons ln rest ih =>
    intro acc
    simp only [List.foldl_cons, List.map_cons]
    rw [ih (mlStep acc ln), mlStep_fst]
    simp

theorem procLine_untouched {ln : List Char}
    (h : (trimStart ln == ([] : List Char)) = true ∨ pfx ['#'] (trimStart ln) = true ∨
         tryRewriteSingle (trimStart ln) = none) :
    procLine ln = (ln, none) := by
  cases hcond : (trimStart ln == ([] : List Char) || pfx ['#'] (trimStart ln)) with
  | true =>
    rcases (Bool.or_eq_true _ _).mp hcond with h1 | h1
    · have he : trimStart ln = [] := by simpa using h1
      simp [procLine, he]
    · simp [procLine, h1]
  | false =>
    rcases h with h | h | h
    · rw [h] at hcond; simp at hcond
    · rw [h] at hcond; simp at hcond
    · simp [procLine, hcond, h]

/-- C9 counterexample: when the last physical line ends in a
continuation backslash, the merged logical line keeps an appended
newline, so an untouched trailing line does not reconstruct
byte-identically — `git status\nfoo \` rewrites to
`rtk git status\nfoo \` **plus a trailing newline**. -/
theorem C9_multiline_cex :
    tryRewrite "git status\nfoo \\".data =
      some ⟨"rtk git status\nfoo \\\n".data, "git"⟩ ∧
    lastEndsBS (splitNl "git status\nfoo \\".data) = true ∧
    joinNl (mergeContLines (splitNl "git status\nfoo \\".data)) ≠ "git status\nfoo \\".data ∧
    (tryRewrite "git status\nfoo \\".data ≠
      some ⟨"rtk git status\nfoo \\".data, "git"⟩) := by
  refine ⟨by decide, by decide, by decide, by decide⟩

/-- C9 amended: for a multi-line block without heredocs whose final
physical line does not end in a continuation backslash, the logical
lines (with continuation merges) reconstruct the block byte-identically,
every blank, comment, or non-matching logical line passes through
`procLine` unchanged, and any rewrite output is exactly the per-logical-
line outputs rejoined by the original line breaks — so untouched lines
appear byte-identical in the output. -/
theorem C9_multiline_amended :
    ∀ cmd : List Char, cmd.contains '\n' = true → hasHeredoc cmd = false →
    lastEndsBS (splitNl cmd) = false →
    joinNl (mergeContLines (splitNl cmd)) = cmd ∧
    (∀ ln : List Char,
        (trimStart ln == ([] : List Char)) = true ∨ pfx ['#'] (trimStart ln) = true ∨
        tryRewriteSingle (trimStart ln) = none →
        procLine ln = (ln, none)) ∧
    (∀ res : RwRes, tryRewrite cmd = some res →
        res.rewritten = joinNl ((mergeContLines (splitNl cmd)).map (fun ln => (procLine ln).1))) := by
  intro cmd h1 h2 h3
  refine ⟨?_, fun ln h => procLine_untouched h, ?_⟩
  · rw [show mergeContLines (splitNl cmd) = mergeAux [] (splitNl cmd) from rfl]
    rw [joinNl_mergeAux (splitNl cmd) [] (splitNl_ne_nil cmd) h3]
    simp [joinNl_splitNl]
  · intro res hres
    unfold tryRewrite at hres
    simp only [h1, Bool.not_true, Bool.false_eq_true, if_false, h2, if_true] at hres
    cases hany : ((mergeContLines (splitNl cmd)).foldl mlStep ([], false, [])).2.1 with
    | false => simp [hany] at hres
    | true =>
      simp only [hany, if_true] at hres
      have hr := Option.some.inj hres
      rw [← hr]
      show joinNl ((mergeContLines (splitNl cmd)).foldl mlStep ([], false, [])).1 = _
      rw [mlFold_fst]
      simp

/-- Witness for C9's amended claim on a comment / matching / non-matching
three-line block. -/
theorem C9_multiline_amended_witness :
    joinNl (mergeContLines (splitNl "# c\ngit status\nls -la".data)) =
      "# c\ngit status\nls -la".data ∧
    procLine "# c".data = ("# c".data, none) ∧
    "# c\nrtk git status\nrtk ls -la".data =
      joinNl ((mergeContLines (splitNl "# c\ngit status\nls -la".data)).map
        (fun ln => (procLine ln).1)) :=
  ⟨(C9_multiline_amended "# c\ngit status\nls -la".data (by decide) (by decide) (by decide)).1,
   (C9_multiline_amended "# c\ngit status\nls -la".data (by decide) (by decide) (by decide)).2.1
     "# c".data (Or.inr (Or.inl (by decide))),
   (C9_multiline_amended "# c\ngit status\nls -la".data (by decide) (by decide) (by decide)).2.2
     ⟨"# c\nrtk git status\nrtk ls -la".data, "git, ls"⟩ (by decide)⟩
